import Mathlib

/-!
# Verification of the gridsram Arduino SRAM reader firmware

A shallow embedding of `ArduinoSRAMReader` (final revision, with `WE`/`OE`
enable lines and a complete `write_sram`).  The firmware exposes a 128KiB
parallel SRAM chip over a serial link: a host sends framed commands
(`SRAM` sync marker, an instruction byte, and for Read/Write two 3-byte
big-endian addresses), and the firmware streams bytes in 32-byte
flow-controlled windows.

Hardware is modelled explicitly:
* the three daisy-chained 74LS164 shift registers that hold the 24-bit
  serialized address are a single 24-bit register (`sreg`); clocking a bit
  in shifts the register left by one, and bits shifted past position 23
  fall off the end of the chain;
* the chip's 17 address lines see the low 17 bits of the chain
  (`sreg % MEM_SIZE`), per the schematic (A0..A16 = chain positions 0..16);
* the chip itself is an opaque linear byte array (`mem`): a read presents
  bits 0..7 of the addressed cell on data lines DQ0..DQ7, which
  `read_sram` reassembles (OR of the masks 0x01..0x80), i.e. the cell
  value mod 256; a write-enable pulse latches the 8 driven lines, i.e.
  the driven value mod 256;
* the data-line direction (the source configures DQ0..DQ7 identically in
  every mode function) and the two enable-line levels are recorded so the
  IDLE/READ/WRITE bus configuration is observable;
* serial input is a list of pending host bytes; a `read_serial` on an
  exhausted list models the firmware busy-waiting forever (`blocked`);
* serial output is a list of protocol events (`Out`), one per frame or
  data byte the firmware emits;
* a ghost access log (`trace`) records every `read_sram` / `write_sram`
  call with its arguments.
-/

namespace GridSRAM

/-- `const unsigned long MEM_SIZE = 0x20000L;` -/
def MEM_SIZE : Nat := 0x20000

/-- Direction of a GPIO pin (`pinMode`). -/
inductive PinDir where
  | input
  | output
deriving DecidableEq, Repr

/-- Ghost log entry: one SRAM chip access with the arguments passed. -/
inductive SramOp where
  | rd (address : Nat)
  | wr (address : Nat) (byteval : Nat)
deriving DecidableEq, Repr

/-- The address argument of a logged SRAM access. -/
def SramOp.address : SramOp → Nat
  | .rd a => a
  | .wr a _ => a

/-- Firmware-visible hardware state. -/
structure St where
  /-- Contents of the SRAM chip, one cell per address. -/
  mem : Nat → Nat
  /-- The 24-bit shift-register chain presenting the address to the chip. -/
  sreg : Nat
  /-- Direction of the eight data lines DQ0..DQ7 (always set together). -/
  dq : PinDir
  /-- Level of the write-enable line (`true` = HIGH). -/
  we : Bool
  /-- Level of the output-enable line (`true` = HIGH). -/
  oe : Bool
  /-- Ghost log of all SRAM accesses, oldest first. -/
  trace : List SramOp

/-- `read_mode()`: WE and OE low, DQ0..DQ7 as inputs. -/
def read_mode (s : St) : St := { s with we := false, oe := false, dq := .input }

/-- `write_mode()`: WE and OE low, DQ0..DQ7 as outputs. -/
def write_mode (s : St) : St := { s with we := false, oe := false, dq := .output }

/-- `idle_mode()`: WE and OE low, DQ0..DQ7 as inputs (identical pin
configuration to `read_mode`). -/
def idle_mode (s : St) : St := { s with we := false, oe := false, dq := .input }

/-- `add_address_bit(val)`: one serial clock pulse shifts the bit
`val ? HIGH : LOW` into the 74LS164 chain; the chain keeps 24 bits, the
oldest bit falls off the end. -/
def add_address_bit (reg val : Nat) : Nat :=
  (2 * reg + (if val = 0 then 0 else 1)) % 2 ^ 24

/-- The source's address loop
`for i in [0,24): add_address_bit((address >> (23 - i)) & 0x1)`,
phrased with `n` bits still to clock: bit `n-1` is clocked next, bit `0`
last. -/
def clock_bits (reg address : Nat) : Nat → Nat
  | 0 => reg
  | n + 1 => clock_bits (add_address_bit reg ((address >>> n) &&& 1)) address n

/-- Clocking all 24 address bits, most-significant first, as both
`read_sram` and `write_sram` do. -/
def clock_out_address (reg address : Nat) : Nat := clock_bits reg address 24

/-- `read_sram(address)`: OE low, clock out the address, pulse OE high and
sample DQ0..DQ7 (bits 0..7 of the addressed cell, reassembled into a
byte), OE low again.  The chip sees the low 17 bits of the chain.
Returns the updated state and the sampled byte; logs the access. -/
def read_sram (s : St) (address : Nat) : St × Nat :=
  let r := clock_out_address s.sreg address
  let byteval := s.mem (r % MEM_SIZE) % 256
  ({ s with sreg := r, oe := false, trace := s.trace ++ [.rd address] }, byteval)

/-- `write_sram(address, byteval)`: WE low, clock out the address, drive
bits 0..7 of `byteval` onto DQ0..DQ7, pulse WE; the chip latches the
driven byte at the addressed cell (low 17 bits of the chain).  Logs the
access. -/
def write_sram (s : St) (address byteval : Nat) : St :=
  let r := clock_out_address s.sreg address
  { s with
    sreg := r
    we := false
    mem := fun a => if a = r % MEM_SIZE then byteval % 256 else s.mem a
    trace := s.trace ++ [.wr address byteval] }

/-- `read_serial()`: blocks until a host byte is available, returns
`Serial.read() & 0xFF` (the low 8 bits).  `none` models the firmware
spinning forever on an exhausted input. -/
def read_serial (input : List Nat) : Option (Nat × List Nat) :=
  match input with
  | [] => none
  | b :: rest => some (b % 256, rest)

/-- One serial output event. -/
inductive Out where
  /-- `Serial.write(b)`: one raw data byte of a Read transfer. -/
  | data (b : Nat)
  /-- `send_success()`: the 2-byte frame `"OK"`. -/
  | success
  /-- `send_continue()`: the 2-byte flow-control frame `"CO"`. -/
  | cont
  /-- `return_general_error` / `return_address_error`: the frame
  `"NG" ++ msg ++ 0x00`. -/
  | error (msg : String)
deriving DecidableEq, Repr

/-- `return_address_error(name, address)`: the message is
`name ++ " address " ++ decimal(address) ++ " out of bounds!"`. -/
def return_address_error (name : String) (address : Nat) : Out :=
  .error (name ++ " address " ++ toString address ++ " out of bounds!")

/-- Result of running one firmware entry point on a list of host bytes. -/
structure RunResult where
  /-- Hardware state when the call returns (or at the moment it blocks). -/
  st : St
  /-- Serial output events emitted, oldest first. -/
  outs : List Out
  /-- Host bytes not consumed (empty when blocked). -/
  rest : List Nat
  /-- `true` iff the firmware is stuck busy-waiting for a host byte. -/
  blocked : Bool


/-- Result of one of the two transfer loops. -/
structure LoopResult where
  st : St
  outs : List Out
  rest : List Nat
  /-- Stuck busy-waiting for a host byte inside the loop. -/
  blocked : Bool
  /-- The Read loop returned early on a bad flow-control token (the
  error frame is already in `outs`). -/
  aborted : Bool


/-- Outcome of the Read loop's window-boundary check: the source reads one
byte and compares it to `'C'` (aborting without reading further on
mismatch), then reads a second byte and compares it to `'O'`. -/
inductive FlowCheck where
  | ok (rest : List Nat)
  | bad (rest : List Nat)
  | blocked


/-- The two `read_serial() != 'C'` / `!= 'O'` checks at a Read window
boundary. -/
def check_continuation (input : List Nat) : FlowCheck :=
  match read_serial input with
  | none => .blocked
  | some (c, i1) =>
    if c ≠ 67 then .bad i1 else  -- 'C'
    match read_serial i1 with
    | none => .blocked
    | some (o, i2) =>
      if o ≠ 79 then .bad i2 else .ok i2  -- 'O'

/-- The Read transfer loop
`for (addr = startaddr; addr < endaddr; addr++)` with its flow-control
counter `cont`: every 32nd iteration first demands a `CO` token from the
host; each iteration reads one SRAM byte and writes it to the serial
link.  The loop runs `endaddr - addr` times; that count is the explicit
(structural) recursion argument. -/
def sram_read_loop (s : St) (input : List Nat) (cont addr : Nat) : Nat → LoopResult
  | 0 => ⟨s, [], input, false, false⟩
  | n + 1 =>
    match (if cont % 32 = 0 then check_continuation input else .ok input) with
    | .blocked => ⟨s, [], [], true, false⟩
    | .bad rest => ⟨s, [.error "Unexpected continuation from client!"], rest, false, true⟩
    | .ok rest =>
      let p := read_sram s addr
      let r := sram_read_loop p.1 rest (cont + 1) (addr + 1) n
      ⟨r.st, .data p.2 :: r.outs, r.rest, r.blocked, r.aborted⟩

/-- The Write transfer loop: every 32nd iteration first sends a `CO`
token to the host; each iteration reads one payload byte from the host
and writes it to the SRAM.  The loop runs `endaddr - addr` times; that
count is the explicit (structural) recursion argument. -/
def sram_write_loop (s : St) (input : List Nat) (cont addr : Nat) : Nat → LoopResult
  | 0 => ⟨s, [], input, false, false⟩
  | n + 1 =>
    match read_serial input with
    | none => ⟨s, if cont % 32 = 0 then [.cont] else [], [], true, false⟩
    | some (b, rest) =>
      let r := sram_write_loop (write_sram s addr b) rest (cont + 1) (addr + 1) n
      ⟨r.st, (if cont % 32 = 0 then [.cont] else []) ++ r.outs, r.rest, r.blocked, r.aborted⟩

/-- One 3-byte big-endian address read:
`((long)read_serial() << 16) | ((long)read_serial() << 8) | (long)read_serial()`. -/
def read_address (input : List Nat) : Option (Nat × List Nat) :=
  match read_serial input with
  | none => none
  | some (b0, i1) =>
    match read_serial i1 with
    | none => none
    | some (b1, i2) =>
      match read_serial i2 with
      | none => none
      | some (b2, i3) => some ((b0 <<< 16) ||| (b1 <<< 8) ||| b2, i3)

/-- The body of the `instruction == 'R'` block, once both addresses are
parsed: the three bounds checks, then `read_mode()`, the announcing
`send_continue()`, the transfer loop, and on completion `send_success()`
and `idle_mode()`. -/
def exec_read (s : St) (startaddr endaddr : Nat) (input : List Nat) : RunResult :=
  if startaddr ≥ MEM_SIZE then ⟨s, [return_address_error "Starting" startaddr], input, false⟩ else
  if endaddr > MEM_SIZE then ⟨s, [return_address_error "Ending" endaddr], input, false⟩ else
  if startaddr ≥ endaddr then ⟨s, [.error "Address bounds out of order!"], input, false⟩ else
  let r := sram_read_loop (read_mode s) input 0 startaddr (endaddr - startaddr)
  if r.blocked then ⟨r.st, .cont :: r.outs, [], true⟩
  else if r.aborted then ⟨r.st, .cont :: r.outs, r.rest, false⟩
  else ⟨idle_mode r.st, .cont :: (r.outs ++ [.success]), r.rest, false⟩

/-- The body of the `instruction == 'W'` block, once both addresses are
parsed: the same three bounds checks, then `write_mode()`, the transfer
loop, and on completion `send_success()` and `idle_mode()`. -/
def exec_write (s : St) (startaddr endaddr : Nat) (input : List Nat) : RunResult :=
  if startaddr ≥ MEM_SIZE then ⟨s, [return_address_error "Starting" startaddr], input, false⟩ else
  if endaddr > MEM_SIZE then ⟨s, [return_address_error "Ending" endaddr], input, false⟩ else
  if startaddr ≥ endaddr then ⟨s, [.error "Address bounds out of order!"], input, false⟩ else
  let r := sram_write_loop (write_mode s) input 0 startaddr (endaddr - startaddr)
  if r.blocked then ⟨r.st, r.outs, [], true⟩
  else ⟨idle_mode r.st, r.outs ++ [.success], r.rest, false⟩

/-- `read_and_execute_command()`: one pass of the firmware's main loop.
Scans for the 4-byte sync marker `"SRAM"` (returning silently on the
first mismatching byte), reads the instruction byte and dispatches:
`'R'` bulk read, `'W'` bulk write, `'S'` status ping, anything else an
`"Unknown command!"` error. -/
def read_and_execute_command (s : St) (input : List Nat) : RunResult :=
  match read_serial input with
  | none => ⟨s, [], [], true⟩
  | some (b1, i1) =>
  if b1 ≠ 83 then ⟨s, [], i1, false⟩ else  -- 'S'
  match read_serial i1 with
  | none => ⟨s, [], [], true⟩
  | some (b2, i2) =>
  if b2 ≠ 82 then ⟨s, [], i2, false⟩ else  -- 'R'
  match read_serial i2 with
  | none => ⟨s, [], [], true⟩
  | some (b3, i3) =>
  if b3 ≠ 65 then ⟨s, [], i3, false⟩ else  -- 'A'
  match read_serial i3 with
  | none => ⟨s, [], [], true⟩
  | some (b4, i4) =>
  if b4 ≠ 77 then ⟨s, [], i4, false⟩ else  -- 'M'
  match read_serial i4 with
  | none => ⟨s, [], [], true⟩
  | some (instruction, i5) =>
  if instruction = 82 then  -- 'R': read a chunk of memory
    match read_address i5 with
    | none => ⟨s, [], [], true⟩
    | some (startaddr, i6) =>
    match read_address i6 with
    | none => ⟨s, [], [], true⟩
    | some (endaddr, i7) => exec_read s startaddr endaddr i7
  else if instruction = 87 then  -- 'W': write a chunk of memory
    match read_address i5 with
    | none => ⟨s, [], [], true⟩
    | some (startaddr, i6) =>
    match read_address i6 with
    | none => ⟨s, [], [], true⟩
    | some (endaddr, i7) => exec_write s startaddr endaddr i7
  else if instruction = 83 then  -- 'S': status ping
    ⟨s, [.success], i5, false⟩
  else
    ⟨s, [.error "Unknown command!"], i5, false⟩

/-! ## Spec-level descriptions of host input and firmware output -/

/-- The 3-byte big-endian wire encoding of an address. -/
def encode_addr (a : Nat) : List Nat := [a / 65536 % 256, a / 256 % 256, a % 256]

/-- A full command frame as the host sends it: sync marker `"SRAM"`, the
instruction byte, both addresses, then whatever the command body needs. -/
def command_input (instr startaddr endaddr : Nat) (body : List Nat) : List Nat :=
  [83, 82, 65, 77] ++ [instr] ++ encode_addr startaddr ++ encode_addr endaddr ++ body

/-- The bytes a cooperative host sends during a Read transfer of `n`
bytes whose flow counter starts at `cont`: a `CO` token before every
byte whose counter value is divisible by 32. -/
def read_tokens (cont n : Nat) : List Nat :=
  match n with
  | 0 => []
  | m + 1 => (if cont % 32 = 0 then [67, 79] else []) ++ read_tokens (cont + 1) m

/-- The `CO` tokens the firmware emits during a Write transfer of `n`
bytes whose flow counter starts at `cont`. -/
def write_conts (cont n : Nat) : List Out :=
  match n with
  | 0 => []
  | m + 1 => (if cont % 32 = 0 then [Out.cont] else []) ++ write_conts (cont + 1) m

/-- The data bytes a Read transfer of `[addr, addr+n)` emits: for each
address in ascending order, the byte `read_sram` returns there. -/
def read_data (m : Nat → Nat) (addr : Nat) : Nat → List Out
  | 0 => []
  | k + 1 => .data (m (addr % MEM_SIZE) % 256) :: read_data m (addr + 1) k

/-- The ghost log a Read transfer appends: one `read_sram` call per
address in ascending order. -/
def read_trace (addr : Nat) : Nat → List SramOp
  | 0 => []
  | k + 1 => SramOp.rd addr :: read_trace (addr + 1) k

/-- The chip contents after writing the payload bytes to consecutive
cells starting at `addr` (each byte latched mod 256, at the cell the
17 address lines select). -/
def write_mem (m : Nat → Nat) (addr : Nat) : List Nat → (Nat → Nat)
  | [] => m
  | b :: bs => write_mem (fun a => if a = addr % MEM_SIZE then b % 256 else m a) (addr + 1) bs

/-- The ghost log a Write transfer appends: one `write_sram` call per
address, in ascending order, with the corresponding payload byte. -/
def write_trace (addr : Nat) : List Nat → List SramOp
  | [] => []
  | b :: bs => SramOp.wr addr (b % 256) :: write_trace (addr + 1) bs

/-- A concrete power-on state for sample runs: `setup()` leaves WE and OE
low and the data pins at their power-on input direction; chip and chain
contents are taken all-zero; the access log starts empty. -/
def boot_st : St :=
  { mem := fun _ => 0, sreg := 0, dq := .input, we := false, oe := false, trace := [] }

/-- The IDLE bus configuration `idle_mode()` establishes: both enable
lines low and the eight data lines configured as inputs. -/
def dir_idle (s : St) : Prop := s.dq = PinDir.input ∧ s.we = false ∧ s.oe = false

/-- The Arduino `loop()`: call `read_and_execute_command()` over and
over.  `k` bounds the number of invocations; a blocked invocation stops
the run (the firmware spins forever inside it). -/
def loop_run (s : St) (input : List Nat) : Nat → RunResult
  | 0 => ⟨s, [], input, false⟩
  | k + 1 =>
    let r := read_and_execute_command s input
    if r.blocked then ⟨r.st, r.outs, [], true⟩
    else
      let t := loop_run r.st r.rest k
      ⟨t.st, r.outs ++ t.outs, t.rest, t.blocked⟩

/-! ## Arithmetic of the address serializer -/

theorem bit_extract (a n : Nat) : (a >>> n) &&& 1 = a / 2 ^ n % 2 := by
  rw [Nat.and_one_is_mod, Nat.shiftRight_eq_div_pow]

theorem clock_bits_eq (a : Nat) :
    ∀ n reg, 0 < n → n ≤ 24 → clock_bits reg a n = (reg * 2 ^ n + a % 2 ^ n) % 2 ^ 24 := by
  intro n
  induction n with
  | zero => omega
  | succ m ih =>
    intro reg _ hle
    rcases Nat.eq_zero_or_pos m with hm | hm
    · subst hm
      simp only [clock_bits, add_address_bit, bit_extract]
      have : (if a / 2 ^ 0 % 2 = 0 then 0 else 1) = a % 2 := by
        simp only [pow_zero, Nat.div_one]
        split <;> omega
      rw [this]
      ring_nf
    · have hle' : m ≤ 24 := by omega
      simp only [clock_bits]
      rw [ih _ hm hle']
      simp only [add_address_bit, bit_extract]
      have hmod : (if a / 2 ^ m % 2 = 0 then 0 else 1) = a / 2 ^ m % 2 := by split <;> omega
      rw [hmod]
      conv_lhs => rw [Nat.add_mod, Nat.mod_mul_mod, ← Nat.add_mod]
      have harith : (2 * reg + a / 2 ^ m % 2) * 2 ^ m + a % 2 ^ m
          = reg * 2 ^ (m + 1) + (a % 2 ^ m + 2 ^ m * (a / 2 ^ m % 2)) := by
        ring
      rw [harith, ← Nat.mod_mul, ← pow_succ]

/-- After all 24 clocks the chain holds exactly the low 24 bits of the
address, whatever it held before. -/
theorem clock_out_address_eq (reg a : Nat) : clock_out_address reg a = a % 2 ^ 24 := by
  rw [clock_out_address, clock_bits_eq a 24 reg (by omega) (by omega)]
  omega

/-- The cell the chip's 17 address lines select, for a 24-bit chain
value: reducing mod `2^24` and then mod `2^17` is just mod `2^17`. -/
theorem chain_cell (a : Nat) : a % 2 ^ 24 % MEM_SIZE = a % MEM_SIZE := by
  have h : MEM_SIZE ∣ 2 ^ 24 := ⟨128, by norm_num [MEM_SIZE]⟩
  exact Nat.mod_mod_of_dvd a h

/-! ## Big-endian address recombination -/

theorem lor_shiftLeft_eq_add (k : Nat) :
    ∀ x z : Nat, z < 2 ^ k → (x <<< k) ||| z = x * 2 ^ k + z := by
  induction k with
  | zero =>
    intro x z hz
    interval_cases z
    simp
  | succ k ih =>
    intro x z hz
    have hdecomp : Nat.bit (z.testBit 0) (z >>> 1) = z := Nat.bit_testBit_zero_shiftRight_one z
    have hx : x <<< (k + 1) = Nat.bit false (x <<< k) := by
      simp [Nat.shiftLeft_succ, Nat.bit, Nat.mul_comm]
    have hz2 : z >>> 1 < 2 ^ k := by
      rw [Nat.shiftRight_eq_div_pow]
      omega
    calc (x <<< (k + 1)) ||| z
        = (Nat.bit false (x <<< k)) ||| (Nat.bit (z.testBit 0) (z >>> 1)) := by rw [hx, hdecomp]
      _ = Nat.bit (false || z.testBit 0) ((x <<< k) ||| (z >>> 1)) := Nat.lor_bit ..
      _ = Nat.bit (z.testBit 0) (x * 2 ^ k + z >>> 1) := by rw [ih _ _ hz2]; simp
      _ = x * 2 ^ (k + 1) + z := by
          have hbit : Nat.bit (z.testBit 0) (x * 2 ^ k + z >>> 1)
              = 2 * (x * 2 ^ k + z >>> 1) + (z.testBit 0).toNat := by
            cases h : z.testBit 0 <;> simp [Nat.bit]
          rw [hbit]
          have h2 : 2 * (z >>> 1) + (z.testBit 0).toNat = z := by
            cases h : z.testBit 0 <;> simp [h, Nat.bit] at hdecomp ⊢ <;> omega
          ring_nf
          omega

/-- Parsing the 3-byte big-endian encoding of an in-range address
recovers the address. -/
theorem read_address_encode (a : Nat) (rest : List Nat) (ha : a < 2 ^ 24) :
    read_address (encode_addr a ++ rest) = some (a, rest) := by
  simp only [encode_addr, List.cons_append, List.nil_append, read_address, read_serial]
  have h1 : a / 65536 % 256 % 256 = a / 65536 % 256 := by omega
  have h2 : a / 256 % 256 % 256 = a / 256 % 256 := by omega
  have h3 : a % 256 % 256 = a % 256 := by omega
  rw [h1, h2, h3]
  have hinner : ((a / 65536 % 256) <<< 16) ||| ((a / 256 % 256) <<< 8)
      = (a / 65536 % 256) * 2 ^ 16 + (a / 256 % 256) * 2 ^ 8 := by
    have hsh : (a / 256 % 256) <<< 8 < 2 ^ 16 := by
      rw [Nat.shiftLeft_eq]
      have : a / 256 % 256 < 256 := Nat.mod_lt _ (by omega)
      omega
    rw [lor_shiftLeft_eq_add 16 _ _ hsh, Nat.shiftLeft_eq]
  rw [hinner]
  have houter : ((a / 65536 % 256) * 2 ^ 16 + (a / 256 % 256) * 2 ^ 8) ||| (a % 256)
      = ((a / 65536 % 256) * 2 ^ 8 + a / 256 % 256) * 2 ^ 8 + a % 256 := by
    have hform : (a / 65536 % 256) * 2 ^ 16 + (a / 256 % 256) * 2 ^ 8
        = ((a / 65536 % 256) * 2 ^ 8 + a / 256 % 256) <<< 8 := by
      rw [Nat.shiftLeft_eq]
      ring
    rw [hform, lor_shiftLeft_eq_add 8 _ _ (by omega)]
  rw [houter]
  have hfin : (a / 65536 % 256 * 2 ^ 8 + a / 256 % 256) * 2 ^ 8 + a % 256 = a := by omega
  rw [hfin]

/-! ## The transfer loops on cooperative host input -/

theorem byte_mod_mod (x : Nat) : x % 256 % 256 = x % 256 := by omega

/-- `chain_cell` with the power normalized to a numeral, for `simp`. -/
theorem chain_cell_num (a : Nat) : a % 16777216 % MEM_SIZE = a % MEM_SIZE := by
  simp only [MEM_SIZE]
  omega

/-- The cell a `read_sram`/`write_sram` at `address` addresses, and the
byte a read returns there. -/
theorem read_sram_eval (s : St) (address : Nat) :
    read_sram s address
      = ({ s with
            sreg := address % 2 ^ 24
            oe := false
            trace := s.trace ++ [.rd address] },
         s.mem (address % MEM_SIZE) % 256) := by
  simp [read_sram, clock_out_address_eq, chain_cell_num]

theorem write_sram_eval (s : St) (address byteval : Nat) :
    write_sram s address byteval
      = { s with
          sreg := address % 2 ^ 24
          we := false
          mem := fun a => if a = address % MEM_SIZE then byteval % 256 else s.mem a
          trace := s.trace ++ [.wr address byteval] } := by
  simp [write_sram, clock_out_address_eq, chain_cell_num]

/-- A well-formed `'R'` command frame reaches the Read dispatch with both
addresses parsed back exactly. -/
theorem exec_command_R (s : St) (startaddr endaddr : Nat) (body : List Nat)
    (hs : startaddr < 2 ^ 24) (he : endaddr < 2 ^ 24) :
    read_and_execute_command s (command_input 82 startaddr endaddr body)
      = exec_read s startaddr endaddr body := by
  have hA : read_address (encode_addr startaddr ++ (encode_addr endaddr ++ body))
      = some (startaddr, encode_addr endaddr ++ body) := read_address_encode _ _ hs
  have hB : read_address (encode_addr endaddr ++ body) = some (endaddr, body) :=
    read_address_encode _ _ he
  simp [command_input, read_and_execute_command, read_serial, hA, hB]

/-- A well-formed `'W'` command frame reaches the Write dispatch with both
addresses parsed back exactly. -/
theorem exec_command_W (s : St) (startaddr endaddr : Nat) (body : List Nat)
    (hs : startaddr < 2 ^ 24) (he : endaddr < 2 ^ 24) :
    read_and_execute_command s (command_input 87 startaddr endaddr body)
      = exec_write s startaddr endaddr body := by
  have hA : read_address (encode_addr startaddr ++ (encode_addr endaddr ++ body))
      = some (startaddr, encode_addr endaddr ++ body) := read_address_encode _ _ hs
  have hB : read_address (encode_addr endaddr ++ body) = some (endaddr, body) :=
    read_address_encode _ _ he
  simp [command_input, read_and_execute_command, read_serial, hA, hB]

/-- Running the Read loop over `[addr, addr + n)` when the host supplies
every flow-control token: the loop consumes exactly the tokens, emits
exactly the `n` data bytes in ascending address order, and finishes
without blocking or aborting. -/
theorem sram_read_loop_run :
    ∀ (n : Nat) (s : St) (cont addr : Nat) (rest : List Nat),
    ∃ st', sram_read_loop s (read_tokens cont n ++ rest) cont addr n
        = ⟨st', read_data s.mem addr n, rest, false, false⟩
      ∧ st'.mem = s.mem ∧ st'.dq = s.dq ∧ st'.we = s.we
      ∧ (s.oe = false → st'.oe = false)
      ∧ st'.trace = s.trace ++ read_trace addr n := by
  intro n
  induction n with
  | zero =>
    intro s cont addr rest
    refine ⟨s, ?_, rfl, rfl, rfl, fun h => h, by simp [read_trace]⟩
    simp [sram_read_loop, read_tokens, read_data]
  | succ m ih =>
    intro s cont addr rest
    obtain ⟨st', heq, hmem, hdq, hwe, hoe, htrace⟩ :=
      ih (read_sram s addr).1 (cont + 1) (addr + 1) rest
    simp only [read_sram_eval] at heq hmem hdq hwe hoe htrace
    refine ⟨st', ?_, ?_, ?_, ?_, ?_, ?_⟩
    · by_cases hc : cont % 32 = 0
      · have hin : read_tokens cont (m + 1) ++ rest
            = 67 :: 79 :: (read_tokens (cont + 1) m ++ rest) := by
          rw [read_tokens, if_pos hc]
          simp
        rw [hin, sram_read_loop, if_pos hc]
        have hck : check_continuation (67 :: 79 :: (read_tokens (cont + 1) m ++ rest))
            = .ok (read_tokens (cont + 1) m ++ rest) := by
          simp [check_continuation, read_serial]
        rw [hck]
        simp only [heq, read_sram_eval, read_data]
      · have hin : read_tokens cont (m + 1) ++ rest = read_tokens (cont + 1) m ++ rest := by
          rw [read_tokens, if_neg hc]
          simp
        rw [hin, sram_read_loop, if_neg hc]
        simp only [heq, read_sram_eval, read_data]
    · rw [hmem]
    · rw [hdq]
    · rw [hwe]
    · intro h
      exact hoe trivial
    · rw [htrace]
      simp [read_trace]

/-- Running the Write loop over `[addr, addr + payload.length)` when the
host supplies the whole payload: the loop consumes exactly the payload,
emits a `CO` token before every 32nd byte, writes each byte to the
corresponding ascending cell, and finishes without blocking. -/
theorem sram_write_loop_run :
    ∀ (payload : List Nat) (s : St) (cont addr : Nat) (rest : List Nat),
    ∃ st', sram_write_loop s (payload ++ rest) cont addr payload.length
        = ⟨st', write_conts cont payload.length, rest, false, false⟩
      ∧ st'.mem = write_mem s.mem addr payload
      ∧ st'.dq = s.dq ∧ (s.we = false → st'.we = false) ∧ st'.oe = s.oe
      ∧ st'.trace = s.trace ++ write_trace addr payload := by
  intro payload
  induction payload with
  | nil =>
    intro s cont addr rest
    refine ⟨s, ?_, rfl, rfl, fun h => h, rfl, by simp [write_trace]⟩
    simp [sram_write_loop, write_conts, write_mem]
  | cons b bs ih =>
    intro s cont addr rest
    obtain ⟨st', heq, hmem, hdq, hwe, hoe, htrace⟩ :=
      ih (write_sram s addr (b % 256)) (cont + 1) (addr + 1) rest
    refine ⟨st', ?_, ?_, ?_, ?_, ?_, ?_⟩
    · rw [show (b :: bs).length = bs.length + 1 from rfl, sram_write_loop]
      simp only [List.cons_append, read_serial]
      rw [heq]
      simp [write_conts]
    · rw [hmem]
      simp only [write_sram_eval, write_mem, byte_mod_mod]
    · rw [hdq]; simp [write_sram_eval]
    · intro h
      apply hwe
      simp [write_sram_eval]
    · rw [hoe]; simp [write_sram_eval]
    · rw [htrace]
      simp [write_sram_eval, write_trace]

/-- `read_data` is exactly one data byte per address of the range in
ascending order, each the byte `read_sram` would return there. -/
theorem read_data_eq_map (s : St) : ∀ (n addr : Nat),
    read_data s.mem addr n = (List.range' addr n).map (fun a => Out.data ((read_sram s a).2)) := by
  intro n
  induction n with
  | zero => intro addr; simp [read_data]
  | succ m ih =>
    intro addr
    rw [List.range'_succ]
    simp only [read_data, List.map_cons, read_sram_eval, ih]

/-- The ghost log of a Write over in-bounds byte payloads is exactly one
`write_sram` call per address of the range, in ascending order, with the
corresponding payload byte. -/
theorem write_trace_eq_zipWith : ∀ (payload : List Nat) (addr : Nat),
    (∀ b ∈ payload, b < 256) →
    write_trace addr payload
      = List.zipWith (fun a b => SramOp.wr a b) (List.range' addr payload.length) payload := by
  intro payload
  induction payload with
  | nil => intro addr _; simp [write_trace]
  | cons b bs ih =>
    intro addr hb
    rw [write_trace, List.length_cons, List.range'_succ]
    have hb0 : b % 256 = b := Nat.mod_eq_of_lt (hb b (by simp))
    rw [hb0, List.zipWith_cons_cons, ih (addr + 1) (fun x hx => hb x (by simp [hx]))]

/-- A valid Read command on a fully cooperative host: the whole token
stream is consumed, the transfer completes, and the response is the
announcing Continue, the data bytes, and one Success. -/
theorem exec_read_valid (s : St) (startaddr endaddr : Nat) (extra : List Nat)
    (h1 : startaddr < endaddr) (h2 : endaddr ≤ MEM_SIZE) :
    ∃ st', exec_read s startaddr endaddr (read_tokens 0 (endaddr - startaddr) ++ extra)
        = ⟨idle_mode st',
           .cont :: (read_data s.mem startaddr (endaddr - startaddr) ++ [.success]),
           extra, false⟩
      ∧ st'.mem = s.mem ∧ st'.trace = s.trace ++ read_trace startaddr (endaddr - startaddr) := by
  obtain ⟨st', hloop, hmem, hdq, hwe, hoe, htrace⟩ :=
    sram_read_loop_run (endaddr - startaddr) (read_mode s) 0 startaddr extra
  refine ⟨st', ?_, ?_, ?_⟩
  · rw [exec_read, if_neg (by omega), if_neg (by omega), if_neg (by omega)]
    simp only [read_mode] at hloop ⊢
    rw [hloop]
    simp
  · rw [hmem]
    simp [read_mode]
  · rw [htrace]
    simp [read_mode]

/-- A valid Write command whose host supplies the whole payload: the
payload is consumed byte-for-byte into ascending cells, a Continue is
emitted before every 32-byte window, and the response ends in one
Success. -/
theorem exec_write_valid (s : St) (startaddr endaddr : Nat) (payload extra : List Nat)
    (hlen : payload.length = endaddr - startaddr)
    (h1 : startaddr < endaddr) (h2 : endaddr ≤ MEM_SIZE) :
    ∃ st', exec_write s startaddr endaddr (payload ++ extra)
        = ⟨idle_mode st', write_conts 0 payload.length ++ [.success], extra, false⟩
      ∧ st'.mem = write_mem s.mem startaddr payload
      ∧ st'.trace = s.trace ++ write_trace startaddr payload := by
  obtain ⟨st', hloop, hmem, hdq, hwe, hoe, htrace⟩ :=
    sram_write_loop_run payload (write_mode s) 0 startaddr extra
  refine ⟨st', ?_, ?_, ?_⟩
  · rw [exec_write, if_neg (by omega), if_neg (by omega), if_neg (by omega),
      show endaddr - startaddr = payload.length from by omega]
    simp only [write_mode] at hloop ⊢
    rw [hloop]
    simp
  · rw [hmem]
    simp [write_mode]
  · rw [htrace]
    simp [write_mode]

/-! ## C1: valid Read transfers -/

/-- **C1.** For every valid range `(start, end)` with
`0 <= start < end <= MEM_SIZE`, and a host that supplies a correct
flow-control token at every window boundary, a Read command emits exactly
`end - start` data bytes in ascending address order, each byte equal to
the value `read_sram` returns for that address, followed by exactly one
Success frame (consuming exactly the token stream, without blocking). -/
theorem claim_C1 (s : St) (startaddr endaddr : Nat) (extra : List Nat)
    (h1 : startaddr < endaddr) (h2 : endaddr ≤ MEM_SIZE) :
    (read_and_execute_command s
        (command_input 82 startaddr endaddr (read_tokens 0 (endaddr - startaddr) ++ extra))).outs
      = Out.cont ::
        ((List.range' startaddr (endaddr - startaddr)).map (fun a => Out.data ((read_sram s a).2))
          ++ [Out.success])
    ∧ (List.range' startaddr (endaddr - startaddr)).length = endaddr - startaddr
    ∧ (read_and_execute_command s
        (command_input 82 startaddr endaddr (read_tokens 0 (endaddr - startaddr) ++ extra))).rest
      = extra
    ∧ (read_and_execute_command s
        (command_input 82 startaddr endaddr (read_tokens 0 (endaddr - startaddr) ++ extra))).blocked
      = false := by
  have hms : MEM_SIZE = 131072 := rfl
  have h24s : startaddr < 2 ^ 24 := by omega
  have h24e : endaddr < 2 ^ 24 := by omega
  rw [exec_command_R s startaddr endaddr _ h24s h24e]
  obtain ⟨st', hrun, hmem, htrace⟩ := exec_read_valid s startaddr endaddr extra h1 h2
  rw [hrun]
  refine ⟨?_, by simp, rfl, rfl⟩
  rw [read_data_eq_map s (endaddr - startaddr) startaddr]

/-- Concrete instance of `claim_C1`: reading `[0, 2)` from the boot
state. -/
theorem claim_C1_witness :
    0 < 2 ∧ 2 ≤ MEM_SIZE ∧
    ((read_and_execute_command boot_st
        (command_input 82 0 2 (read_tokens 0 (2 - 0) ++ []))).outs
      = Out.cont ::
        ((List.range' 0 (2 - 0)).map (fun a => Out.data ((read_sram boot_st a).2))
          ++ [Out.success])
    ∧ (List.range' 0 (2 - 0)).length = 2 - 0
    ∧ (read_and_execute_command boot_st
        (command_input 82 0 2 (read_tokens 0 (2 - 0) ++ []))).rest
      = []
    ∧ (read_and_execute_command boot_st
        (command_input 82 0 2 (read_tokens 0 (2 - 0) ++ []))).blocked
      = false) :=
  ⟨by decide, by decide, claim_C1 boot_st 0 2 [] (by decide) (by decide)⟩

/-! ## C2: valid Write transfers -/

/-- **C2.** For every valid range `(start, end)` with
`0 <= start < end <= MEM_SIZE`, a Write command consumes exactly
`end - start` payload bytes from the host and calls `write_sram` exactly
once per address in ascending address order with the corresponding
payload byte, followed by exactly one Success frame. -/
theorem claim_C2 (s : St) (startaddr endaddr : Nat) (payload extra : List Nat)
    (hlen : payload.length = endaddr - startaddr)
    (hbytes : ∀ b ∈ payload, b < 256)
    (h1 : startaddr < endaddr) (h2 : endaddr ≤ MEM_SIZE) :
    (read_and_execute_command s (command_input 87 startaddr endaddr (payload ++ extra))).outs
      = write_conts 0 payload.length ++ [Out.success]
    ∧ (read_and_execute_command s (command_input 87 startaddr endaddr (payload ++ extra))).rest
      = extra
    ∧ (read_and_execute_command s (command_input 87 startaddr endaddr (payload ++ extra))).blocked
      = false
    ∧ (read_and_execute_command s (command_input 87 startaddr endaddr (payload ++ extra))).st.trace
      = s.trace ++ List.zipWith (fun a b => SramOp.wr a b)
          (List.range' startaddr payload.length) payload := by
  have hms : MEM_SIZE = 131072 := rfl
  have h24s : startaddr < 2 ^ 24 := by omega
  have h24e : endaddr < 2 ^ 24 := by omega
  rw [exec_command_W s startaddr endaddr _ h24s h24e]
  obtain ⟨st', hrun, hmem, htrace⟩ := exec_write_valid s startaddr endaddr payload extra hlen h1 h2
  rw [hrun]
  refine ⟨rfl, rfl, rfl, ?_⟩
  show (idle_mode st').trace = _
  rw [show (idle_mode st').trace = st'.trace from rfl, htrace,
    write_trace_eq_zipWith payload startaddr hbytes]

/-- Concrete instance of `claim_C2`: writing `[5, 250]` to `[0, 2)` from
the boot state. -/
theorem claim_C2_witness :
    [5, 250].length = 2 - 0 ∧ (∀ b ∈ [5, 250], b < 256) ∧ 0 < 2 ∧ 2 ≤ MEM_SIZE ∧
    ((read_and_execute_command boot_st (command_input 87 0 2 ([5, 250] ++ []))).outs
      = write_conts 0 [5, 250].length ++ [Out.success]
    ∧ (read_and_execute_command boot_st (command_input 87 0 2 ([5, 250] ++ []))).rest
      = []
    ∧ (read_and_execute_command boot_st (command_input 87 0 2 ([5, 250] ++ []))).blocked
      = false
    ∧ (read_and_execute_command boot_st (command_input 87 0 2 ([5, 250] ++ []))).st.trace
      = boot_st.trace ++ List.zipWith (fun a b => SramOp.wr a b)
          (List.range' 0 [5, 250].length) [5, 250]) :=
  ⟨by decide, by decide, by decide, by decide,
   claim_C2 boot_st 0 2 [5, 250] [] (by decide) (by decide) (by decide) (by decide)⟩

/-! ## C7: write/read round trip -/

/-- Writes at or above `addr` never change a cell below `addr` (all
written cells stay in bounds, so no 17-bit wrap-around aliasing). -/
theorem write_mem_lower : ∀ (bs : List Nat) (m : Nat → Nat) (addr a : Nat),
    a < addr → addr + bs.length ≤ MEM_SIZE → write_mem m addr bs a = m a := by
  intro bs
  induction bs with
  | nil => intro m addr a _ _; rfl
  | cons b bs ih =>
    intro m addr a ha hb
    rw [List.length_cons] at hb
    rw [write_mem, ih _ (addr + 1) a (by omega) (by omega)]
    have haddr : addr % MEM_SIZE = addr := Nat.mod_eq_of_lt (by omega)
    rw [haddr, if_neg (by omega)]

/-- Reading back a freshly written in-bounds range returns exactly the
payload bytes. -/
theorem read_data_write_mem : ∀ (payload : List Nat) (m : Nat → Nat) (addr : Nat),
    addr + payload.length ≤ MEM_SIZE → (∀ b ∈ payload, b < 256) →
    read_data (write_mem m addr payload) addr payload.length = payload.map Out.data := by
  intro payload
  induction payload with
  | nil => intro m addr _ _; simp [read_data, write_mem]
  | cons b bs ih =>
    intro m addr hbound hb
    rw [List.length_cons] at hbound
    have haddr : addr % MEM_SIZE = addr := Nat.mod_eq_of_lt (by omega)
    rw [List.length_cons, write_mem, read_data]
    have hcell : write_mem (fun a => if a = addr % MEM_SIZE then b % 256 else m a)
        (addr + 1) bs (addr % MEM_SIZE) = b % 256 := by
      rw [write_mem_lower bs _ (addr + 1) (addr % MEM_SIZE) (by omega) (by omega), haddr,
        if_pos rfl]
    rw [hcell, byte_mod_mod, Nat.mod_eq_of_lt (hb b (by simp)),
      ih _ (addr + 1) (by omega) (fun x hx => hb x (by simp [hx])), List.map_cons]

/-- **C7.** Round-trip: for every in-bounds range `[A, A+n)` and byte
list `[b0..bn)`, executing a Write command of those bytes to that range
and then a Read command of the same range (with a cooperative host)
returns exactly the bytes `[b0..bn)`. -/
theorem claim_C7 (s : St) (startaddr n : Nat) (payload : List Nat)
    (hlen : payload.length = n) (hn : 0 < n)
    (hbytes : ∀ b ∈ payload, b < 256)
    (hend : startaddr + n ≤ MEM_SIZE) :
    (read_and_execute_command
        ((read_and_execute_command s (command_input 87 startaddr (startaddr + n) payload)).st)
        (command_input 82 startaddr (startaddr + n) (read_tokens 0 n))).outs
      = Out.cont :: (payload.map Out.data ++ [Out.success]) := by
  have hms : MEM_SIZE = 131072 := rfl
  have h1 : startaddr < startaddr + n := by omega
  have h24s : startaddr < 2 ^ 24 := by omega
  have h24e : startaddr + n < 2 ^ 24 := by omega
  rw [exec_command_W s startaddr (startaddr + n) _ h24s h24e]
  obtain ⟨st', hrun, hmem, htrace⟩ :=
    exec_write_valid s startaddr (startaddr + n) payload [] (by omega) h1 (by omega)
  rw [List.append_nil] at hrun
  rw [hrun]
  rw [exec_command_R _ startaddr (startaddr + n) _ h24s h24e]
  obtain ⟨st2, hrun2, hmem2, htrace2⟩ :=
    exec_read_valid (idle_mode st') startaddr (startaddr + n) [] h1 (by omega)
  rw [List.append_nil, show startaddr + n - startaddr = n from by omega] at hrun2
  rw [hrun2]
  have hmem' : (idle_mode st').mem = write_mem s.mem startaddr payload := hmem
  rw [hmem', show n = payload.length from hlen.symm,
    read_data_write_mem payload s.mem startaddr (by omega) hbytes]

/-- Concrete instance of `claim_C7`: round-tripping `[7, 200]` through
`[0, 2)` from the boot state. -/
theorem claim_C7_witness :
    [7, 200].length = 2 ∧ 0 < 2 ∧ (∀ b ∈ [7, 200], b < 256) ∧ 0 + 2 ≤ MEM_SIZE ∧
    (read_and_execute_command
        ((read_and_execute_command boot_st (command_input 87 0 (0 + 2) [7, 200])).st)
        (command_input 82 0 (0 + 2) (read_tokens 0 2))).outs
      = Out.cont :: ([7, 200].map Out.data ++ [Out.success]) :=
  ⟨by decide, by decide, by decide, by decide,
   claim_C7 boot_st 0 2 [7, 200] (by decide) (by decide) (by decide) (by decide)⟩

/-! ## C5: starting-address bounds error -/

/-- **C5.** For any Read or Write command whose parsed start address
satisfies `start >= MEM_SIZE`, the firmware emits an Error frame whose
message names "Starting" and contains the decimal value of `start`, and
exchanges no bytes of range data: the state (including the SRAM access
log) is untouched and the input past the command frame is untouched. -/
theorem claim_C5 (s : St) (startaddr endaddr : Nat) (body : List Nat)
    (h : startaddr ≥ MEM_SIZE) (h24s : startaddr < 2 ^ 24) (h24e : endaddr < 2 ^ 24) :
    read_and_execute_command s (command_input 82 startaddr endaddr body)
      = ⟨s, [Out.error ("Starting address " ++ toString startaddr ++ " out of bounds!")],
          body, false⟩
    ∧ read_and_execute_command s (command_input 87 startaddr endaddr body)
      = ⟨s, [Out.error ("Starting address " ++ toString startaddr ++ " out of bounds!")],
          body, false⟩ := by
  have hstr : ("Starting" ++ " address " : String) = "Starting address " := by decide
  constructor
  · rw [exec_command_R s startaddr endaddr _ h24s h24e, exec_read, if_pos h]
    simp only [return_address_error, hstr]
  · rw [exec_command_W s startaddr endaddr _ h24s h24e, exec_write, if_pos h]
    simp only [return_address_error, hstr]

/-- Concrete instance of `claim_C5`: `start = 0x20000` is rejected by
both Read and Write without touching anything. -/
theorem claim_C5_witness :
    131072 ≥ MEM_SIZE ∧ 131072 < 2 ^ 24 ∧ 0 < 2 ^ 24 ∧
    (read_and_execute_command boot_st (command_input 82 131072 0 [9])
      = ⟨boot_st, [Out.error ("Starting address " ++ toString 131072 ++ " out of bounds!")],
          [9], false⟩
    ∧ read_and_execute_command boot_st (command_input 87 131072 0 [9])
      = ⟨boot_st, [Out.error ("Starting address " ++ toString 131072 ++ " out of bounds!")],
          [9], false⟩) :=
  ⟨by decide, by decide, by decide,
   claim_C5 boot_st 131072 0 [9] (by decide) (by decide) (by decide)⟩

/-! ## C10: bytes consumed before validation

The frame is 4 sync bytes + 1 instruction byte + 6 address bytes, so on
a validation failure exactly 7 bytes past the sync marker have been
consumed — not 9 as the claim counts. -/

/-- **C10 counterexample.** A Read command with `start = MEM_SIZE`
(validation failure) and 4 trailing bytes: the leftover input is exactly
the 4 trailing bytes, so of the 15 input bytes 11 were consumed, i.e.
7 bytes past the 4-byte sync marker — not 9. -/
theorem claim_C10_counterexample :
    (read_and_execute_command boot_st
        (command_input 82 131072 0 [99, 98, 97, 96])).rest = [99, 98, 97, 96]
    ∧ (command_input 82 131072 0 [99, 98, 97, 96]).length = 15
    ∧ 15 - 4 - 4 = 7
    ∧ ¬ (15 - 4 - 4 = 9) := by decide

/-- **C10 (amended).** For every Read or Write command, both 3-byte
big-endian addresses (all 6 bytes) are consumed from the serial link
before any validation check runs; consequently, on any
address-validation failure exactly 7 bytes past the sync marker have
been consumed (the instruction byte and the 6 address bytes), exactly
one error frame is emitted, no Continue is emitted, and no SRAM access
occurs. -/
theorem claim_C10_amended (s : St) (instr startaddr endaddr : Nat) (body : List Nat)
    (hinstr : instr = 82 ∨ instr = 87)
    (h24s : startaddr < 2 ^ 24) (h24e : endaddr < 2 ^ 24)
    (hfail : startaddr ≥ MEM_SIZE ∨ endaddr > MEM_SIZE ∨ startaddr ≥ endaddr) :
    ∃ msg, read_and_execute_command s (command_input instr startaddr endaddr body)
        = ⟨s, [Out.error msg], body, false⟩ := by
  rcases hinstr with h | h <;> subst h
  · rw [exec_command_R s startaddr endaddr _ h24s h24e]
    by_cases hA : startaddr ≥ MEM_SIZE
    · exact ⟨_, by rw [exec_read, if_pos hA]; rfl⟩
    · by_cases hB : endaddr > MEM_SIZE
      · exact ⟨_, by rw [exec_read, if_neg hA, if_pos hB]; rfl⟩
      · have hC : startaddr ≥ endaddr := by rcases hfail with h | h | h <;> omega
        exact ⟨_, by rw [exec_read, if_neg hA, if_neg hB, if_pos hC]⟩
  · rw [exec_command_W s startaddr endaddr _ h24s h24e]
    by_cases hA : startaddr ≥ MEM_SIZE
    · exact ⟨_, by rw [exec_write, if_pos hA]; rfl⟩
    · by_cases hB : endaddr > MEM_SIZE
      · exact ⟨_, by rw [exec_write, if_neg hA, if_pos hB]; rfl⟩
      · have hC : startaddr ≥ endaddr := by rcases hfail with h | h | h <;> omega
        exact ⟨_, by rw [exec_write, if_neg hA, if_neg hB, if_pos hC]⟩

/-- Concrete instance of `claim_C10_amended`: an out-of-order Write range
fails validation with one error frame and leaves the trailing input (and
the state) untouched. -/
theorem claim_C10_amended_witness :
    (82 = 82 ∨ 82 = 87) ∧ 131072 < 2 ^ 24 ∧ 0 < 2 ^ 24 ∧
    (131072 ≥ MEM_SIZE ∨ 0 > MEM_SIZE ∨ 131072 ≥ 0) ∧
    (∃ msg, read_and_execute_command boot_st (command_input 82 131072 0 [1])
        = ⟨boot_st, [Out.error msg], [1], false⟩) :=
  ⟨Or.inl rfl, by decide, by decide, Or.inl (by decide),
   claim_C10_amended boot_st 82 131072 0 [1] (Or.inl rfl) (by decide) (by decide)
     (Or.inl (by decide))⟩

/-! ## C8: sync-marker scanning -/

/-- **C8.** The interpreter reads and discards serial bytes until the
4-byte sync sequence `'S','R','A','M'` is matched exactly in order;
whenever an expected sync byte mismatches, it abandons the frame attempt
silently — consuming the mismatched byte, emitting no output, leaving
the state untouched — and the main loop restarts the scan from the next
byte. -/
theorem claim_C8 (s : St) (x : Nat) (rest : List Nat) :
    (x % 256 ≠ 83 →
      read_and_execute_command s (x :: rest) = ⟨s, [], rest, false⟩
      ∧ ∀ k, loop_run s (x :: rest) (k + 1) = loop_run s rest k)
    ∧ (x % 256 ≠ 82 →
      read_and_execute_command s (83 :: x :: rest) = ⟨s, [], rest, false⟩
      ∧ ∀ k, loop_run s (83 :: x :: rest) (k + 1) = loop_run s rest k)
    ∧ (x % 256 ≠ 65 →
      read_and_execute_command s (83 :: 82 :: x :: rest) = ⟨s, [], rest, false⟩
      ∧ ∀ k, loop_run s (83 :: 82 :: x :: rest) (k + 1) = loop_run s rest k)
    ∧ (x % 256 ≠ 77 →
      read_and_execute_command s (83 :: 82 :: 65 :: x :: rest) = ⟨s, [], rest, false⟩
      ∧ ∀ k, loop_run s (83 :: 82 :: 65 :: x :: rest) (k + 1) = loop_run s rest k)
    ∧ read_and_execute_command s (83 :: 82 :: 65 :: 77 :: 83 :: rest)
        = ⟨s, [Out.success], rest, false⟩ := by
  have hloop : ∀ inp : List Nat, read_and_execute_command s inp = ⟨s, [], rest, false⟩ →
      ∀ k, loop_run s inp (k + 1) = loop_run s rest k := by
    intro inp h k
    simp only [loop_run, h]
    simp
  refine ⟨fun h => ⟨?_, fun k => hloop _ ?_ k⟩, fun h => ⟨?_, fun k => hloop _ ?_ k⟩,
    fun h => ⟨?_, fun k => hloop _ ?_ k⟩, fun h => ⟨?_, fun k => hloop _ ?_ k⟩, ?_⟩ <;>
    simp [read_and_execute_command, read_serial, *]

/-- Concrete instance of `claim_C8`: byte `0` mismatches at each of the
four sync positions and is silently swallowed; a full `"SRAM"` marker
followed by the Status instruction is accepted. -/
theorem claim_C8_witness :
    (read_and_execute_command boot_st [0] = ⟨boot_st, [], [], false⟩
      ∧ loop_run boot_st [0] 1 = loop_run boot_st [] 0)
    ∧ (read_and_execute_command boot_st [83, 0] = ⟨boot_st, [], [], false⟩
      ∧ loop_run boot_st [83, 0] 1 = loop_run boot_st [] 0)
    ∧ (read_and_execute_command boot_st [83, 82, 0] = ⟨boot_st, [], [], false⟩
      ∧ loop_run boot_st [83, 82, 0] 1 = loop_run boot_st [] 0)
    ∧ (read_and_execute_command boot_st [83, 82, 65, 0] = ⟨boot_st, [], [], false⟩
      ∧ loop_run boot_st [83, 82, 65, 0] 1 = loop_run boot_st [] 0)
    ∧ read_and_execute_command boot_st [83, 82, 65, 77, 83]
        = ⟨boot_st, [Out.success], [], false⟩ :=
  ⟨⟨((claim_C8 boot_st 0 []).1 (by decide)).1, ((claim_C8 boot_st 0 []).1 (by decide)).2 0⟩,
   ⟨((claim_C8 boot_st 0 []).2.1 (by decide)).1, ((claim_C8 boot_st 0 []).2.1 (by decide)).2 0⟩,
   ⟨((claim_C8 boot_st 0 []).2.2.1 (by decide)).1,
    ((claim_C8 boot_st 0 []).2.2.1 (by decide)).2 0⟩,
   ⟨((claim_C8 boot_st 0 []).2.2.2.1 (by decide)).1,
    ((claim_C8 boot_st 0 []).2.2.2.1 (by decide)).2 0⟩,
   (claim_C8 boot_st 0 []).2.2.2.2⟩

/-! ## General-input loop invariants -/

/-- On any host input whatsoever, the Read loop leaves the data-line
direction and the WE level untouched, and leaves OE low if it was low. -/
theorem sram_read_loop_pins :
    ∀ (n : Nat) (s : St) (input : List Nat) (cont addr : Nat),
    (sram_read_loop s input cont addr n).st.dq = s.dq
    ∧ (sram_read_loop s input cont addr n).st.we = s.we
    ∧ (s.oe = false → (sram_read_loop s input cont addr n).st.oe = false) := by
  intro n
  induction n with
  | zero =>
    intro s input cont addr
    rw [sram_read_loop]
    exact ⟨rfl, rfl, fun h => h⟩
  | succ m ih =>
    intro s input cont addr
    rcases hfc : (if cont % 32 = 0 then check_continuation input else FlowCheck.ok input)
      with rest' | rest' | _
    · rw [sram_read_loop, hfc]
      obtain ⟨ih1, ih2, ih3⟩ := ih (read_sram s addr).1 rest' (cont + 1) (addr + 1)
      refine ⟨?_, ?_, fun _ => ?_⟩
      · simpa [read_sram_eval] using ih1
      · simpa [read_sram_eval] using ih2
      · exact ih3 (by simp [read_sram_eval])
    · rw [sram_read_loop, hfc]
      exact ⟨rfl, rfl, fun h => h⟩
    · rw [sram_read_loop, hfc]
      exact ⟨rfl, rfl, fun h => h⟩

/-- On any host input whatsoever, every access the Read loop logs is at
an address of `[addr, endaddr)`. -/
theorem sram_read_loop_safe :
    ∀ (n : Nat) (s : St) (input : List Nat) (cont addr : Nat),
    ∀ op ∈ (sram_read_loop s input cont addr n).st.trace,
      op ∈ s.trace ∨ (addr ≤ op.address ∧ op.address < addr + n) := by
  intro n
  induction n with
  | zero =>
    intro s input cont addr op hop
    rw [sram_read_loop] at hop
    exact Or.inl hop
  | succ m ih =>
    intro s input cont addr op hop
    rcases hfc : (if cont % 32 = 0 then check_continuation input else FlowCheck.ok input)
      with rest' | rest' | _
    · rw [sram_read_loop, hfc] at hop
      rcases ih (read_sram s addr).1 rest' (cont + 1) (addr + 1) op hop with hin | hrange
      · rw [read_sram_eval] at hin
        simp only [List.mem_append, List.mem_singleton] at hin
        rcases hin with hin | rfl
        · exact Or.inl hin
        · exact Or.inr ⟨le_refl _, by simp [SramOp.address]⟩
      · exact Or.inr ⟨by omega, by omega⟩
    · rw [sram_read_loop, hfc] at hop
      exact Or.inl hop
    · rw [sram_read_loop, hfc] at hop
      exact Or.inl hop

/-- On any host input whatsoever, every access the Write loop logs is at
an address of `[addr, endaddr)`. -/
theorem sram_write_loop_safe :
    ∀ (n : Nat) (s : St) (input : List Nat) (cont addr : Nat),
    ∀ op ∈ (sram_write_loop s input cont addr n).st.trace,
      op ∈ s.trace ∨ (addr ≤ op.address ∧ op.address < addr + n) := by
  intro n
  induction n with
  | zero =>
    intro s input cont addr op hop
    rw [sram_write_loop] at hop
    exact Or.inl hop
  | succ m ih =>
    intro s input cont addr op hop
    rcases input with _ | ⟨b, tl⟩
    · rw [sram_write_loop] at hop
      exact Or.inl hop
    · rw [sram_write_loop] at hop
      simp only [read_serial] at hop
      rcases ih (write_sram s addr (b % 256)) tl (cont + 1) (addr + 1) op hop
        with hin | hrange
      · rw [write_sram_eval] at hin
        simp only [List.mem_append, List.mem_singleton] at hin
        rcases hin with hin | rfl
        · exact Or.inl hin
        · exact Or.inr ⟨le_refl _, by simp [SramOp.address]⟩
      · exact Or.inr ⟨by omega, by omega⟩

/-- Every invocation of the interpreter either leaves the state alone or
hands a parsed address pair to the Read or Write dispatch. -/
theorem run_cases (s : St) (input : List Nat) :
    (read_and_execute_command s input).st = s
    ∨ (∃ a b i, read_and_execute_command s input = exec_read s a b i)
    ∨ (∃ a b i, read_and_execute_command s input = exec_write s a b i) := by
  rcases input with _ | ⟨b1, i1⟩
  · left; rfl
  rcases ne_or_eq (b1 % 256) 83 with h1 | h1
  · left; simp [read_and_execute_command, read_serial, h1]
  rcases i1 with _ | ⟨b2, i2⟩
  · left; simp [read_and_execute_command, read_serial, h1]
  rcases ne_or_eq (b2 % 256) 82 with h2 | h2
  · left; simp [read_and_execute_command, read_serial, h1, h2]
  rcases i2 with _ | ⟨b3, i3⟩
  · left; simp [read_and_execute_command, read_serial, h1, h2]
  rcases ne_or_eq (b3 % 256) 65 with h3 | h3
  · left; simp [read_and_execute_command, read_serial, h1, h2, h3]
  rcases i3 with _ | ⟨b4, i4⟩
  · left; simp [read_and_execute_command, read_serial, h1, h2, h3]
  rcases ne_or_eq (b4 % 256) 77 with h4 | h4
  · left; simp [read_and_execute_command, read_serial, h1, h2, h3, h4]
  rcases i4 with _ | ⟨b5, i5⟩
  · left; simp [read_and_execute_command, read_serial, h1, h2, h3, h4]
  rcases ne_or_eq (b5 % 256) 82 with h5 | h5
  · rcases ne_or_eq (b5 % 256) 87 with h6 | h6
    · left
      by_cases h7 : b5 % 256 = 83 <;>
        simp [read_and_execute_command, read_serial, h1, h2, h3, h4, h5, h6, h7]
    · rcases hra : read_address i5 with _ | ⟨a, i6⟩
      · left; simp [read_and_execute_command, read_serial, h1, h2, h3, h4, h5, h6, hra]
      rcases hrb : read_address i6 with _ | ⟨b, i7⟩
      · left; simp [read_and_execute_command, read_serial, h1, h2, h3, h4, h5, h6, hra, hrb]
      right; right
      exact ⟨a, b, i7,
        by simp [read_and_execute_command, read_serial, h1, h2, h3, h4, h5, h6, hra, hrb]⟩
  · rcases hra : read_address i5 with _ | ⟨a, i6⟩
    · left; simp [read_and_execute_command, read_serial, h1, h2, h3, h4, h5, hra]
    rcases hrb : read_address i6 with _ | ⟨b, i7⟩
    · left; simp [read_and_execute_command, read_serial, h1, h2, h3, h4, h5, hra, hrb]
    right; left
    exact ⟨a, b, i7,
      by simp [read_and_execute_command, read_serial, h1, h2, h3, h4, h5, hra, hrb]⟩

/-! ## C3: bus direction returns to the IDLE configuration -/

/-- The Read dispatch always ends (even on an abort or a block) with the
data lines as inputs and both enables low — the IDLE configuration. -/
theorem exec_read_dir (s : St) (a b : Nat) (input : List Nat) (h : dir_idle s) :
    dir_idle (exec_read s a b input).st := by
  obtain ⟨hdq, hwe, hoe⟩ :=
    sram_read_loop_pins (b - a) (read_mode s) input 0 a
  simp only [exec_read]
  split_ifs
  · exact h
  · exact h
  · exact h
  · exact ⟨by simpa [read_mode] using hdq, by simpa [read_mode] using hwe,
      hoe (by simp [read_mode])⟩
  · exact ⟨by simpa [read_mode] using hdq, by simpa [read_mode] using hwe,
      hoe (by simp [read_mode])⟩
  · exact ⟨rfl, rfl, rfl⟩

/-- The Write dispatch, whenever it finishes rather than blocking,
ends in the IDLE configuration (it either never left it or ran
`idle_mode()`). -/
theorem exec_write_dir (s : St) (a b : Nat) (input : List Nat) (h : dir_idle s)
    (hnb : (exec_write s a b input).blocked = false) :
    dir_idle (exec_write s a b input).st := by
  simp only [exec_write] at hnb ⊢
  split_ifs at hnb ⊢
  · exact h
  · exact h
  · exact h
  · exact ⟨rfl, rfl, rfl⟩

/-- **C3.** The bus direction always returns to IDLE between commands:
whenever the processing of one `read_and_execute_command` invocation
finishes (whether in a Success frame, an Error frame, or a silent sync
restart), the data-line direction and enable lines are in the IDLE
configuration before the interpreter resumes the sync-scan loop. -/
theorem claim_C3 (s : St) (input : List Nat) (h : dir_idle s)
    (hdone : (read_and_execute_command s input).blocked = false) :
    dir_idle (read_and_execute_command s input).st := by
  rcases run_cases s input with hst | ⟨a, b, i, heq⟩ | ⟨a, b, i, heq⟩
  · rw [hst]; exact h
  · rw [heq]; exact exec_read_dir s a b i h
  · rw [heq] at hdone ⊢
    exact exec_write_dir s a b i h hdone

/-- Concrete instance of `claim_C3`: a full Write command leaves the bus
in the IDLE configuration. -/
theorem claim_C3_witness :
    dir_idle boot_st
    ∧ (read_and_execute_command boot_st (command_input 87 0 1 [42])).blocked = false
    ∧ dir_idle (read_and_execute_command boot_st (command_input 87 0 1 [42])).st :=
  ⟨⟨rfl, rfl, rfl⟩, by decide,
   claim_C3 boot_st (command_input 87 0 1 [42]) ⟨rfl, rfl, rfl⟩ (by decide)⟩

/-! ## C9: every SRAM access is in bounds -/

/-- The Read dispatch only ever accesses the chip at validated
addresses: anything it adds to the access log is below `MEM_SIZE`. -/
theorem exec_read_safe (s : St) (a b : Nat) (input : List Nat) :
    ∀ op ∈ (exec_read s a b input).st.trace, op ∈ s.trace ∨ op.address < MEM_SIZE := by
  simp only [exec_read]
  split_ifs with hA hB hC
  · exact fun op hop => Or.inl hop
  · exact fun op hop => Or.inl hop
  · exact fun op hop => Or.inl hop
  all_goals
    intro op hop
    have hsafe := sram_read_loop_safe (b - a) (read_mode s) input 0 a op
    simp only [read_mode] at hsafe
    exact (hsafe hop).imp id (fun hr => by omega)

/-- The Write dispatch only ever accesses the chip at validated
addresses. -/
theorem exec_write_safe (s : St) (a b : Nat) (input : List Nat) :
    ∀ op ∈ (exec_write s a b input).st.trace, op ∈ s.trace ∨ op.address < MEM_SIZE := by
  simp only [exec_write]
  split_ifs with hA hB hC
  · exact fun op hop => Or.inl hop
  · exact fun op hop => Or.inl hop
  · exact fun op hop => Or.inl hop
  all_goals
    intro op hop
    have hsafe := sram_write_loop_safe (b - a) (write_mode s) input 0 a op
    simp only [write_mode] at hsafe
    exact (hsafe hop).imp id (fun hr => by omega)

/-- **C9.** Every call to `read_sram` and `write_sram` made during
command processing receives an address strictly less than `MEM_SIZE`:
whatever bytes the host sends, every access the run adds to the log is
in bounds, because the three bounds checks run before either transfer
loop — even though the wire format allows 24-bit addresses. -/
theorem claim_C9 (s : St) (input : List Nat) (op : SramOp)
    (hop : op ∈ (read_and_execute_command s input).st.trace) :
    op ∈ s.trace ∨ op.address < MEM_SIZE := by
  rcases run_cases s input with hst | ⟨a, b, i, heq⟩ | ⟨a, b, i, heq⟩
  · rw [hst] at hop
    exact Or.inl hop
  · rw [heq] at hop
    exact exec_read_safe s a b i op hop
  · rw [heq] at hop
    exact exec_write_safe s a b i op hop

/-- Concrete instance of `claim_C9`: the one write a 1-byte Write
command performs is in bounds, even in a fresh log. -/
theorem claim_C9_witness :
    SramOp.wr 0 42 ∈ (read_and_execute_command boot_st (command_input 87 0 1 [42])).st.trace
    ∧ (SramOp.wr 0 42 ∈ boot_st.trace ∨ (SramOp.wr 0 42).address < MEM_SIZE) :=
  ⟨by decide, claim_C9 boot_st (command_input 87 0 1 [42]) (SramOp.wr 0 42) (by decide)⟩

/-! ## C4: flow-control token mismatch during a Read -/

/-- If the host supplies correct tokens for the first `k` bytes
(`k` a window boundary, `k` short of the range) and then a bad token,
the Read loop emits exactly the first `k` data bytes and the
continuation error, aborts, and consumes nothing past the bad token. -/
theorem sram_read_loop_bad :
    ∀ (k : Nat) (s : St) (cont addr n x y : Nat) (rest : List Nat),
    (cont + k) % 32 = 0 → k < n →
    (x % 256 ≠ 67 ∨ y % 256 ≠ 79) →
    ∃ st', sram_read_loop s (read_tokens cont k ++ x :: y :: rest) cont addr n
        = ⟨st', read_data s.mem addr k ++ [.error "Unexpected continuation from client!"],
           if x % 256 = 67 then rest else y :: rest, false, true⟩
      ∧ st'.trace = s.trace ++ read_trace addr k ∧ st'.mem = s.mem := by
  intro k
  induction k with
  | zero =>
    intro s cont addr n x y rest hk32 hk hbad
    rcases n with _ | n₂
    · exact absurd hk (by omega)
    have hcont : cont % 32 = 0 := by omega
    by_cases hx : x % 256 = 67
    · have hy : y % 256 ≠ 79 := by tauto
      have hck : check_continuation (x :: y :: rest) = .bad rest := by
        simp [check_continuation, read_serial, hx, hy]
      rw [read_tokens, List.nil_append, sram_read_loop, if_pos hcont, hck, if_pos hx]
      exact ⟨s, by simp [read_data], by simp [read_trace], rfl⟩
    · have hck : check_continuation (x :: y :: rest) = .bad (y :: rest) := by
        simp [check_continuation, read_serial, hx]
      rw [read_tokens, List.nil_append, sram_read_loop, if_pos hcont, hck, if_neg hx]
      exact ⟨s, by simp [read_data], by simp [read_trace], rfl⟩
  | succ m ih =>
    intro s cont addr n x y rest hk32 hk hbad
    rcases n with _ | n₂
    · exact absurd hk (by omega)
    obtain ⟨st', heq, htrace, hmem⟩ :=
      ih (read_sram s addr).1 (cont + 1) (addr + 1) n₂ x y rest (by omega) (by omega) hbad
    simp only [read_sram_eval] at heq htrace hmem
    refine ⟨st', ?_, ?_, hmem⟩
    · by_cases hc : cont % 32 = 0
      · have hin : read_tokens cont (m + 1) ++ x :: y :: rest
            = 67 :: 79 :: (read_tokens (cont + 1) m ++ x :: y :: rest) := by
          rw [read_tokens, if_pos hc]
          simp
        rw [hin, sram_read_loop, if_pos hc]
        have hck : check_continuation (67 :: 79 :: (read_tokens (cont + 1) m ++ x :: y :: rest))
            = .ok (read_tokens (cont + 1) m ++ x :: y :: rest) := by
          simp [check_continuation, read_serial]
        rw [hck]
        simp only [heq, read_sram_eval, read_data]
        simp
      · have hin : read_tokens cont (m + 1) ++ x :: y :: rest
            = read_tokens (cont + 1) m ++ x :: y :: rest := by
          rw [read_tokens, if_neg hc]
          simp
        rw [hin, sram_read_loop, if_neg hc]
        simp only [heq, read_sram_eval, read_data]
        simp
    · rw [htrace]
      simp [read_trace]

/-- **C4.** During a Read transfer, at every window boundary (index `k`
with `k % 32 = 0`), the interpreter demands the 2-byte flow-control
token `'C','O'` from the host; any mismatch aborts the whole command
with the general error "Unexpected continuation from client!": exactly
the `k` previous data bytes have been emitted, no further byte of the
range is transferred (the access log stops at `k` reads), and nothing
past the offending token is consumed. -/
theorem claim_C4 (s : St) (startaddr endaddr k x y : Nat) (rest : List Nat)
    (h1 : startaddr < endaddr) (h2 : endaddr ≤ MEM_SIZE)
    (hk32 : k % 32 = 0) (hk : k < endaddr - startaddr)
    (hbad : x % 256 ≠ 67 ∨ y % 256 ≠ 79) :
    ∃ st', read_and_execute_command s
        (command_input 82 startaddr endaddr (read_tokens 0 k ++ x :: y :: rest))
      = ⟨st', Out.cont :: (read_data s.mem startaddr k
            ++ [Out.error "Unexpected continuation from client!"]),
         if x % 256 = 67 then rest else y :: rest, false⟩
      ∧ st'.trace = s.trace ++ read_trace startaddr k := by
  have hms : MEM_SIZE = 131072 := rfl
  rw [exec_command_R s startaddr endaddr _ (by omega) (by omega)]
  obtain ⟨st', heq, htrace, hmem⟩ :=
    sram_read_loop_bad k (read_mode s) 0 startaddr (endaddr - startaddr) x y rest
      (by omega) hk hbad
  rw [exec_read, if_neg (by omega), if_neg (by omega), if_neg (by omega)]
  simp only [read_mode] at heq htrace ⊢
  rw [heq]
  exact ⟨st', by simp, by simpa using htrace⟩

/-- Concrete instance of `claim_C4`: a bad token at the very first
window boundary aborts a 2-byte Read with no data emitted and no SRAM
access. -/
theorem claim_C4_witness :
    0 < 2 ∧ 2 ≤ MEM_SIZE ∧ 0 % 32 = 0 ∧ 0 < 2 - 0 ∧ (88 % 256 ≠ 67 ∨ 89 % 256 ≠ 79) ∧
    (∃ st', read_and_execute_command boot_st
        (command_input 82 0 2 (read_tokens 0 0 ++ 88 :: 89 :: [5]))
      = ⟨st', Out.cont :: (read_data boot_st.mem 0 0
            ++ [Out.error "Unexpected continuation from client!"]),
         if 88 % 256 = 67 then [5] else 89 :: [5], false⟩
      ∧ st'.trace = boot_st.trace ++ read_trace 0 0) :=
  ⟨by decide, by decide, by decide, by decide, Or.inl (by decide),
   claim_C4 boot_st 0 2 0 88 89 [5] (by decide) (by decide) (by decide) (by decide)
     (Or.inl (by decide))⟩

/-! ## C6: window boundaries at indices 0, 32, 64 -/

/-- If the host supplies tokens for exactly `k` bytes (`k` a window
boundary short of the range) and then nothing, the Read loop emits
exactly the first `k` data bytes and blocks waiting for the next
token. -/
theorem sram_read_loop_blocked :
    ∀ (k : Nat) (s : St) (cont addr n : Nat),
    (cont + k) % 32 = 0 → k < n →
    ∃ st', sram_read_loop s (read_tokens cont k) cont addr n
        = ⟨st', read_data s.mem addr k, [], true, false⟩ := by
  intro k
  induction k with
  | zero =>
    intro s cont addr n hk32 hk
    rcases n with _ | n₂
    · exact absurd hk (by omega)
    have hcont : cont % 32 = 0 := by omega
    have hck : check_continuation ([] : List Nat) = .blocked := rfl
    rw [read_tokens, sram_read_loop, if_pos hcont, hck]
    exact ⟨s, by simp [read_data]⟩
  | succ m ih =>
    intro s cont addr n hk32 hk
    rcases n with _ | n₂
    · exact absurd hk (by omega)
    obtain ⟨st', heq⟩ := ih (read_sram s addr).1 (cont + 1) (addr + 1) n₂ (by omega) (by omega)
    simp only [read_sram_eval] at heq
    refine ⟨st', ?_⟩
    by_cases hc : cont % 32 = 0
    · have hin : read_tokens cont (m + 1) = 67 :: 79 :: read_tokens (cont + 1) m := by
        rw [read_tokens, if_pos hc]
        simp
      rw [hin, sram_read_loop, if_pos hc]
      have hck : check_continuation (67 :: 79 :: read_tokens (cont + 1) m)
          = .ok (read_tokens (cont + 1) m) := by
        simp [check_continuation, read_serial]
      rw [hck]
      simp only [heq, read_sram_eval, read_data]
    · have hin : read_tokens cont (m + 1) = read_tokens (cont + 1) m := by
        rw [read_tokens, if_neg hc]
        simp
      rw [hin, sram_read_loop, if_neg hc]
      simp only [heq, read_sram_eval, read_data]

/-- If the host supplies fewer payload bytes than the range needs, the
Write loop consumes them all — emitting a Continue before each window
boundary it reaches, including the one it then blocks at. -/
theorem sram_write_loop_blocked :
    ∀ (payload : List Nat) (s : St) (cont addr n : Nat),
    payload.length < n →
    ∃ st', sram_write_loop s payload cont addr n
        = ⟨st', write_conts cont payload.length
            ++ (if (cont + payload.length) % 32 = 0 then [Out.cont] else []),
           [], true, false⟩ := by
  intro payload
  induction payload with
  | nil =>
    intro s cont addr n hk
    rcases n with _ | n₂
    · exact absurd hk (by omega)
    rw [sram_write_loop]
    exact ⟨s, by simp [read_serial, write_conts]⟩
  | cons b bs ih =>
    intro s cont addr n hk
    rcases n with _ | n₂
    · exact absurd hk (by omega)
    obtain ⟨st', heq⟩ :=
      ih (write_sram s addr (b % 256)) (cont + 1) (addr + 1) n₂ (by simp at hk; omega)
    refine ⟨st', ?_⟩
    rw [show (b :: bs).length = bs.length + 1 from rfl, sram_write_loop]
    simp only [read_serial]
    rw [heq]
    simp only [write_conts, List.append_assoc]
    rw [show cont + 1 + bs.length = cont + (bs.length + 1) from by omega]

/-- **C6.** For a Read of length 65 the interpreter blocks for exactly 3
flow-control tokens, at byte indices 0, 32 and 64, each before emitting
that window's data: the cooperative token stream is exactly 3 `CO`
pairs, and with only the first 2 tokens the interpreter emits exactly
the first 64 data bytes and blocks.  For a Write of length 65 it emits
exactly 3 Continue tokens at the same indices, each before consuming
that window's payload: a full 65-byte payload yields 3 Continues and a
Success, and a 64-byte payload yields all 3 Continues (the third before
the unserved window at index 64) and then blocks. -/
theorem claim_C6 (s : St) (startaddr : Nat) (payload65 payload64 : List Nat)
    (h : startaddr + 65 ≤ MEM_SIZE)
    (hp65 : payload65.length = 65) (hp64 : payload64.length = 64) :
    ((read_and_execute_command s
        (command_input 82 startaddr (startaddr + 65) [67, 79, 67, 79, 67, 79])).outs
      = Out.cont :: (read_data s.mem startaddr 65 ++ [Out.success]))
    ∧ read_tokens 0 65 = [67, 79, 67, 79, 67, 79]
    ∧ ((read_and_execute_command s
        (command_input 82 startaddr (startaddr + 65) [67, 79, 67, 79])).outs
      = Out.cont :: read_data s.mem startaddr 64)
    ∧ ((read_and_execute_command s
        (command_input 82 startaddr (startaddr + 65) [67, 79, 67, 79])).blocked = true)
    ∧ ((read_and_execute_command s
        (command_input 87 startaddr (startaddr + 65) payload65)).outs
      = [Out.cont, Out.cont, Out.cont, Out.success])
    ∧ ((read_and_execute_command s
        (command_input 87 startaddr (startaddr + 65) payload64)).outs
      = [Out.cont, Out.cont, Out.cont])
    ∧ ((read_and_execute_command s
        (command_input 87 startaddr (startaddr + 65) payload64)).blocked = true) := by
  have hms : MEM_SIZE = 131072 := rfl
  have h1 : startaddr < startaddr + 65 := by omega
  have hfuel : startaddr + 65 - startaddr = 65 := by omega
  refine ⟨?_, by decide, ?_, ?_, ?_, ?_, ?_⟩
  · rw [exec_command_R s startaddr (startaddr + 65) _ (by omega) (by omega)]
    obtain ⟨st', hrun, hmem, htrace⟩ :=
      exec_read_valid s startaddr (startaddr + 65) [] h1 (by omega)
    rw [List.append_nil, hfuel, show read_tokens 0 65 = [67, 79, 67, 79, 67, 79] from by decide]
      at hrun
    rw [hrun]
  · rw [exec_command_R s startaddr (startaddr + 65) _ (by omega) (by omega)]
    obtain ⟨st', heq⟩ :=
      sram_read_loop_blocked 64 (read_mode s) 0 startaddr 65 (by decide) (by omega)
    rw [show read_tokens 0 64 = [67, 79, 67, 79] from by decide] at heq
    rw [exec_read, if_neg (by omega), if_neg (by omega), if_neg (by omega), hfuel]
    simp only [read_mode] at heq ⊢
    rw [heq]
    simp
  · rw [exec_command_R s startaddr (startaddr + 65) _ (by omega) (by omega)]
    obtain ⟨st', heq⟩ :=
      sram_read_loop_blocked 64 (read_mode s) 0 startaddr 65 (by decide) (by omega)
    rw [show read_tokens 0 64 = [67, 79, 67, 79] from by decide] at heq
    rw [exec_read, if_neg (by omega), if_neg (by omega), if_neg (by omega), hfuel]
    simp only [read_mode] at heq ⊢
    rw [heq]
    simp
  · rw [exec_command_W s startaddr (startaddr + 65) _ (by omega) (by omega)]
    obtain ⟨st', hrun, hmem, htrace⟩ :=
      exec_write_valid s startaddr (startaddr + 65) payload65 [] (by omega) h1 (by omega)
    rw [List.append_nil] at hrun
    rw [hrun, hp65]
    show write_conts 0 65 ++ [Out.success] = [Out.cont, Out.cont, Out.cont, Out.success]
    decide
  · rw [exec_command_W s startaddr (startaddr + 65) _ (by omega) (by omega)]
    obtain ⟨st', heq⟩ :=
      sram_write_loop_blocked payload64 (write_mode s) 0 startaddr 65 (by omega)
    rw [exec_write, if_neg (by omega), if_neg (by omega), if_neg (by omega), hfuel]
    simp only [write_mode] at heq ⊢
    rw [heq]
    simp only [Bool.if_true_left]
    simp
    rw [hp64]
    decide
  · rw [exec_command_W s startaddr (startaddr + 65) _ (by omega) (by omega)]
    obtain ⟨st', heq⟩ :=
      sram_write_loop_blocked payload64 (write_mode s) 0 startaddr 65 (by omega)
    rw [exec_write, if_neg (by omega), if_neg (by omega), if_neg (by omega), hfuel]
    simp only [write_mode] at heq ⊢
    rw [heq]
    simp

/-- Concrete instance of `claim_C6` at `start = 0` with all-7 and all-9
payloads. -/
theorem claim_C6_witness :
    0 + 65 ≤ MEM_SIZE
    ∧ (List.replicate 65 7).length = 65
    ∧ (List.replicate 64 9).length = 64
    ∧ (((read_and_execute_command boot_st
          (command_input 82 0 (0 + 65) [67, 79, 67, 79, 67, 79])).outs
        = Out.cont :: (read_data boot_st.mem 0 65 ++ [Out.success]))
      ∧ read_tokens 0 65 = [67, 79, 67, 79, 67, 79]
      ∧ ((read_and_execute_command boot_st
          (command_input 82 0 (0 + 65) [67, 79, 67, 79])).outs
        = Out.cont :: read_data boot_st.mem 0 64)
      ∧ ((read_and_execute_command boot_st
          (command_input 82 0 (0 + 65) [67, 79, 67, 79])).blocked = true)
      ∧ ((read_and_execute_command boot_st
          (command_input 87 0 (0 + 65) (List.replicate 65 7))).outs
        = [Out.cont, Out.cont, Out.cont, Out.success])
      ∧ ((read_and_execute_command boot_st
          (command_input 87 0 (0 + 65) (List.replicate 64 9))).outs
        = [Out.cont, Out.cont, Out.cont])
      ∧ ((read_and_execute_command boot_st
          (command_input 87 0 (0 + 65) (List.replicate 64 9))).blocked = true)) :=
  ⟨by decide, by decide, by decide,
   claim_C6 boot_st 0 (List.replicate 65 7) (List.replicate 64 9)
     (by decide) (by decide) (by decide)⟩

end GridSRAM
